import Mathlib

/-!
Verification development for the Better-Console logging core
(src/better-console.js).  The JavaScript source is shallowly embedded:
JS runtime values are the inductive `JsVal`, the compiled wildcard
`RegExp` of `createWildcardRegex` is a list of pattern tokens whose
anchored-match semantics is `globMatch`, the mutable `state` object is
the structure `BCState`, and code that may throw is modelled in
`Except Unit`.
-/

/-- Model of a JavaScript runtime value, as far as the logging core
inspects one.  `vbad` stands for a structured value whose
`JSON.stringify` serialization throws (e.g. a circular object). -/
inductive JsVal where
  | vnull
  | vundefined
  | vstr (s : String)
  | vnum (n : Int)
  | vbool (b : Bool)
  | vfun
  | vsym
  | varr (elems : List JsVal)
  | vobj (fields : List (String × JsVal))
  | vbad

/-- JavaScript truthiness of a modelled value. -/
def truthy : JsVal → Bool
  | .vnull => false
  | .vundefined => false
  | .vstr s => s ≠ ""
  | .vnum n => n ≠ 0
  | .vbool b => b
  | .vfun => true
  | .vsym => true
  | .varr _ => true
  | .vobj _ => true
  | .vbad => true

mutual

/-- JavaScript `String(value)` coercion (approximated for the cases the
logging core can reach; functions and symbols are summarised). -/
def jsToString : JsVal → String
  | .vnull => "null"
  | .vundefined => "undefined"
  | .vstr s => s
  | .vnum n => toString n
  | .vbool b => if b then ("true") else ("false")
  | .vfun => "function"
  | .vsym => "Symbol()"
  | .varr l => String.intercalate (",") (jsToStringList l)
  | .vobj _ => "[object Object]"
  | .vbad => "[object Object]"

/-- The element strings of `Array.prototype.join` (which `String(arr)`
delegates to): a `null` or `undefined` element renders as the empty
string, not as its own `String()` coercion. -/
def jsToStringList : List JsVal → List String
  | [] => []
  | .vnull :: l => "" :: jsToStringList l
  | .vundefined :: l => "" :: jsToStringList l
  | v :: l => jsToString v :: jsToStringList l

end

/-- JavaScript property access `v[key]`: `undefined` on non-objects and
missing keys.  Assoc lists model objects with distinct keys. -/
def getProp (v : JsVal) (key : String) : JsVal :=
  match v with
  | .vobj fields =>
    match fields.find? (fun f => f.1 = key) with
    | some f => f.2
    | none => .vundefined
  | _ => .vundefined

/-- One token of a compiled wildcard pattern.  `createWildcardRegex`
escapes every regex metacharacter except `*`, so the compiled regex is a
sequence of literal characters and `.*` runs. -/
inductive PatTok where
  | lit (c : Char)
  | star
deriving DecidableEq

/-- Source: `createWildcardRegex` (src/better-console.js:582-586).  The
escape step makes every character except `*` a literal; `*` becomes
`.*`.  The pattern is anchored (`^...$`), which the matcher
`globMatch` realises by matching the whole string. -/
def createWildcardRegex (token : String) : List PatTok :=
  token.toList.map (fun c => if c = '*' then PatTok.star else PatTok.lit c)

/-- The JavaScript regex line terminators.  `createWildcardRegex` builds
its regex with `new RegExp('^' + escaped + '$')` and no flags, so the
`.` inside the `.*` that `*` compiles to matches any character except
these four (no `s`/dotAll flag). -/
def isLineTerminator (c : Char) : Bool :=
  c = '\n' || c = '\r' || c = '\u2028' || c = '\u2029'

/-- Matching of a `.*` run followed by a continuation `f`: the run may
consume any prefix of non-line-terminator characters before `f` takes
over. -/
def globStarAux (f : List Char → Bool) : List Char → Bool
  | [] => f []
  | c :: s' => f (c :: s') || (!isLineTerminator c && globStarAux f s')

/-- Anchored matching semantics of the compiled regex: literals match
themselves, `star` (`.*`) matches any run of zero or more characters
none of which is a line terminator, and the whole string must be
consumed. -/
def globMatch : List PatTok → List Char → Bool
  | [], s => s.isEmpty
  | .lit c :: ps, s =>
    match s with
    | [] => false
    | d :: s' => c = d && globMatch ps s'
  | .star :: ps, s => globStarAux (fun t => globMatch ps t) s

/-- `re.test(s)` for a compiled wildcard pattern. -/
def reTest (p : List PatTok) (s : String) : Bool :=
  globMatch p s.toList

/-- The `LEVELS` weight table (src/better-console.js:21-28). -/
def LEVELS : List (String × Nat) :=
  [("trace", 10), ("debug", 20), ("log", 30), ("info", 40), ("warn", 50), ("error", 60)]

/-- `LEVELS[name]` lookup; `none` models `undefined`. -/
def levelLookup (name : String) : Option Nat :=
  match LEVELS.find? (fun p => p.1 = name) with
  | some p => some p.2
  | none => none

/-- A buffered history entry (the trimmed projection stored in
`state.buffer`). -/
structure Entry where
  time : String
  level : String
  «namespace» : String
  preview : String
deriving DecidableEq

/-- The parts of the source's mutable `state` object that the
decision-and-delivery pipeline reads and writes.  Sinks are identified
by numbers; their behaviour lives in `Ctx`. -/
structure BCState where
  level : String
  levelWeight : Nat
  includePatterns : List (List PatTok)
  excludePatterns : List (List PatTok)
  buffer : List Entry
  transports : List Nat
  paused : Bool
  onceKeys : List String
  nsLevelRules : List (List PatTok × Nat)
  sampleRules : List (List PatTok × ℚ)
  bufferSize : Nat
  printToNative : Bool
  captureStack : JsVal

/-- Source: `isNamespaceEnabled` (src/better-console.js:325-341).  A
non-string or empty namespace argument falls back to `"global"`; any
matching exclude pattern wins over every include. -/
def isNamespaceEnabled (includes excludes : List (List PatTok)) (namespaceArg : JsVal) : Bool :=
  let ns :=
    match namespaceArg with
    | .vstr s => if s.length ≠ 0 then s else ("global")
    | _ => "global"
  if excludes.any (fun re => reTest re ns) then false
  else includes.any (fun re => reTest re ns)

/-- JS regex `\s`: ASCII whitespace plus the Unicode space separators,
no-break space, BOM and the two line separators. -/
def isJsSpace (c : Char) : Bool :=
  c = ' ' || c = '\t' || c = '\n' || c = '\r' || c = '\x0c' || c = '\x0b'
    || c = '\u00a0' || c = '\u1680' || (0x2000 ≤ c.toNat && c.toNat ≤ 0x200a)
    || c = '\u2028' || c = '\u2029' || c = '\u202f' || c = '\u205f'
    || c = '\u3000' || c = '\ufeff'

/-- Source: `enableNamespaces` (src/better-console.js:294-320).  Runs of
whitespace are turned into commas, tokens are split on commas and empty
tokens dropped; a leading `-` sends the rest of the token to the exclude
list; an empty include list defaults to the catch-all pattern. -/
def enableNamespaces (patternString : String) : List (List PatTok) × List (List PatTok) :=
  if patternString.trim = "" then ([createWildcardRegex ("*")], [])
  else
    let replaced := String.mk (patternString.toList.map (fun c => if isJsSpace c then ',' else c))
    let tokens := (replaced.split (fun c => c = ',')).filter (fun t => t ≠ "")
    let state := tokens.foldl
      (fun (acc : List (List PatTok) × List (List PatTok)) tok =>
        let token := tok.trim
        if token = "" then acc
        else if token.toList.head? = some '-' then
          (acc.1, acc.2 ++ [createWildcardRegex (String.mk token.toList.tail)])
        else
          (acc.1 ++ [createWildcardRegex token], acc.2))
      ([], [])
    (if state.1 = [] then [createWildcardRegex ("*")] else state.1, state.2)

/-- Source: `setLevel` (src/better-console.js:276-280).  An unknown
level name returns early, leaving both the stored level name and the
derived weight untouched. -/
def setLevel (st : BCState) (levelName : String) : BCState :=
  match levelLookup levelName with
  | none => st
  | some w => { st with level := levelName, levelWeight := w }

/-- `getLevel` (src/better-console.js:129). -/
def getLevel (st : BCState) : String :=
  st.level

/-- Source: `compilePatternMap` (src/better-console.js:1087-1095):
each `(pattern, value)` pair of the map is compiled to a rule with a
wildcard regex and a transformed value, in insertion order. -/
def compilePatternMap (map : List (String × JsVal)) (transform : JsVal → α) :
    List (List PatTok × α) :=
  map.map (fun kv => (createWildcardRegex kv.1, transform kv.2))

/-- The property names a JavaScript bracket lookup on a plain object
literal resolves on `Object.prototype` when they miss the object's own
keys.  For each of these, `LEVELS[lvl]` yields an inherited truthy
value (a function, or for the proto accessor an object) instead of
`undefined`. -/
def objectProtoKeys : List String :=
  ["constructor", "hasOwnProperty", "isPrototypeOf", "propertyIsEnumerable",
    "toLocaleString", "toString", "valueOf", "__proto__", "__defineGetter__",
    "__defineSetter__", "__lookupGetter__", "__lookupSetter__"]

/-- Source: `setNamespaceLevels` (src/better-console.js:1054-1056).
The transform is `LEVELS[lvl] || LEVELS.debug`.  Bracket access on the
`LEVELS` object literal consults the prototype chain: a level name that
is one of the six own keys yields its weight; a name inherited from
`Object.prototype` (e.g. `constructor`, `toString`) yields the
inherited truthy non-numeric value, which `||` keeps; any other name
yields `undefined` and falls back to the debug weight (20).  The
inherited value's only consumer is the comparison
`LEVELS[levelName] < nsWeight` in `getEffectiveLevelWeight`'s caller,
which is false for every level name (a number-to-NaN comparison), i.e.
the rule never rejects; over the `Nat` weights of this model, the value
0 has exactly that observable behaviour, so the inherited case is
stored as 0. -/
def setNamespaceLevels (st : BCState) (map : List (String × String)) : BCState :=
  { st with
    nsLevelRules :=
      compilePatternMap (map.map (fun kv => (kv.1, JsVal.vstr kv.2)))
        (fun lvl =>
          match levelLookup (jsToString lvl) with
          | some w => if w ≠ 0 then w else 20
          | none =>
            if objectProtoKeys.contains (jsToString lvl) then 0
            else 20) }

/-- Source: `setSampling` (src/better-console.js:1058-1063).  Rates
outside `[0, 1]` are replaced by 1. -/
def setSampling (st : BCState) (map : List (String × ℚ)) : BCState :=
  { st with
    sampleRules :=
      (map.map (fun kv => (kv.1, kv.2))).map
        (fun kv => (createWildcardRegex kv.1, if 0 ≤ kv.2 ∧ kv.2 ≤ 1 then kv.2 else 1)) }

/-- Source: `getEffectiveLevelWeight` (src/better-console.js:1069-1076).
A non-string namespace falls back to `"global"` (note: unlike
`isNamespaceEnabled`, the empty string is kept as is); the first
matching rule wins, otherwise the global level weight applies. -/
def getEffectiveLevelWeight (st : BCState) (namespaceArg : JsVal) : Nat :=
  let ns :=
    match namespaceArg with
    | .vstr s => s
    | _ => "global"
  match st.nsLevelRules.find? (fun rule => reTest rule.1 ns) with
  | some rule => rule.2
  | none => st.levelWeight

/-- Source: `shouldPassSampling` (src/better-console.js:1078-1085).  The
random source is a stream `rand` read at a cursor `idx`; exactly when
the first matching sample rule is found, one draw is consumed and
compared against the rule's rate. -/
def shouldPassSampling (st : BCState) (namespaceArg : JsVal) (rand : Nat → ℚ) (idx : Nat) :
    Bool × Nat :=
  let ns :=
    match namespaceArg with
    | .vstr s => s
    | _ => "global"
  match st.sampleRules.find? (fun rule => reTest rule.1 ns) with
  | some rule => (rand idx < rule.2, idx + 1)
  | none => (true, idx)

/-- Which of the three gates of `emit` rejected a call, if any. -/
inductive Decision where
  | accept
  | rejectLevel
  | rejectSampling
  | rejectNamespace
deriving DecidableEq

/-- The acceptance gate of `emit` (src/better-console.js:418-421):
level check, then sampling, then namespace enablement, in that order,
with the sampling draw consumed only after the level check passed.
`emit` only calls this with a level name validated against `LEVELS`. -/
def emitGate (st : BCState) (levelName ns : String) (rand : Nat → ℚ) (idx : Nat) :
    Decision × Nat :=
  if (levelLookup levelName).getD 30 < getEffectiveLevelWeight st (.vstr ns) then
    (.rejectLevel, idx)
  else
    let sampled := shouldPassSampling st (.vstr ns) rand idx
    if !sampled.1 then (.rejectSampling, sampled.2)
    else if !isNamespaceEnabled st.includePatterns st.excludePatterns (.vstr ns) then
      (.rejectNamespace, sampled.2)
    else (.accept, sampled.2)

/-- Trimming step shared by `addToBuffer` and `importBuffer`: drop just
enough entries from the front to restore `length ≤ cap`. -/
def dropOverflow (cap : Nat) (l : List Entry) : List Entry :=
  let overflow := l.length - cap
  if overflow > 0 then l.drop overflow else l

/-- Source: `addToBuffer` (src/better-console.js:521-527): push to the
back, then splice the overflow off the front. -/
def addToBuffer (cap : Nat) (buf : List Entry) (e : Entry) : List Entry :=
  dropOverflow cap (buf ++ [e])

theorem globMatch_lit_iff (l : List Char) : ∀ s, globMatch (l.map PatTok.lit) s = true ↔ l = s := by
  induction l with
  | nil => intro s; cases s <;> simp [globMatch]
  | cons c l ih =>
    intro s
    cases s with
    | nil => simp [globMatch]
    | cons d s => simp [globMatch, ih s]

theorem globStarAux_iff (f : List Char → Bool) (s : List Char) :
    globStarAux f s = true ↔
      ∃ s1 s2, s = s1 ++ s2 ∧ (∀ c ∈ s1, isLineTerminator c = false) ∧ f s2 = true := by
  induction s with
  | nil =>
    rw [globStarAux]
    constructor
    · intro h
      exact ⟨[], [], rfl, by intro c hc; exact absurd hc (List.not_mem_nil c), h⟩
    · rintro ⟨s1, s2, hsplit, hclean, hf⟩
      obtain ⟨h1, h2⟩ := List.append_eq_nil.mp hsplit.symm
      subst h1; subst h2
      exact hf
  | cons c s' ih =>
    rw [globStarAux]
    simp only [Bool.or_eq_true, Bool.and_eq_true, Bool.not_eq_true']
    constructor
    · rintro (hf | ⟨hterm, hrec⟩)
      · exact ⟨[], c :: s', rfl, by intro x hx; exact absurd hx (List.not_mem_nil x), hf⟩
      · obtain ⟨s1, s2, hsplit, hclean, hf⟩ := ih.mp hrec
        refine ⟨c :: s1, s2, by rw [List.cons_append, hsplit], ?_, hf⟩
        intro x hx
        rcases List.mem_cons.mp hx with rfl | hx'
        · exact hterm
        · exact hclean x hx'
    · rintro ⟨s1, s2, hsplit, hclean, hf⟩
      cases s1 with
      | nil =>
        left
        rw [List.nil_append] at hsplit
        exact hsplit ▸ hf
      | cons c1 t1 =>
        right
        rw [List.cons_append] at hsplit
        injection hsplit with hc ht
        subst hc
        exact ⟨hclean c (List.mem_cons_self c t1),
          ih.mpr ⟨t1, s2, ht, fun x hx => hclean x (List.mem_cons_of_mem _ hx), hf⟩⟩

theorem globMatch_star_iff (ps : List PatTok) (s : List Char) :
    globMatch (.star :: ps) s = true ↔
      ∃ s1 s2, s = s1 ++ s2 ∧ (∀ c ∈ s1, isLineTerminator c = false)
        ∧ globMatch ps s2 = true := by
  rw [show globMatch (.star :: ps) s = globStarAux (fun t => globMatch ps t) s from rfl]
  exact globStarAux_iff _ s

theorem globMatch_lit_append_iff (l : List Char) (ps : List PatTok) :
    ∀ s, globMatch (l.map PatTok.lit ++ ps) s = true ↔
      ∃ s', s = l ++ s' ∧ globMatch ps s' = true := by
  induction l with
  | nil => intro s; simp
  | cons c l ih =>
    intro s
    cases s with
    | nil => simp [globMatch]
    | cons d s =>
      simp only [List.map_cons, List.cons_append, globMatch, ih s, List.cons.injEq,
        Bool.and_eq_true, decide_eq_true_eq]
      aesop

theorem createWildcardRegex_of_noStar (token : String) (h : '*' ∉ token.toList) :
    createWildcardRegex token = token.toList.map PatTok.lit := by
  unfold createWildcardRegex
  apply List.map_congr_left
  intro c hc
  have : c ≠ '*' := fun he => h (he ▸ hc)
  simp [this]

theorem mapTok_noStar (l : List Char) (h : '*' ∉ l) :
    l.map (fun c => if c = '*' then PatTok.star else PatTok.lit c) = l.map PatTok.lit := by
  apply List.map_congr_left
  intro c hc
  have : c ≠ '*' := fun he => h (he ▸ hc)
  simp [this]

theorem reTest_star_decomp (a b s : String) (ha : '*' ∉ a.toList) (hb : '*' ∉ b.toList) :
    reTest (createWildcardRegex (a ++ "*" ++ b)) s = true ↔
      ∃ mid : String, s = a ++ mid ++ b ∧ ∀ c ∈ mid.toList, isLineTerminator c = false := by
  have hstar : ("*" : String).toList = ['*'] := rfl
  have hpat : createWildcardRegex (a ++ "*" ++ b) =
      a.toList.map PatTok.lit ++ (PatTok.star :: b.toList.map PatTok.lit) := by
    unfold createWildcardRegex
    have h1 : (a ++ "*" ++ b).toList = a.toList ++ '*' :: b.toList := by
      simp [String.toList, hstar]
    rw [h1, List.map_append, List.map_cons, mapTok_noStar a.toList ha, mapTok_noStar b.toList hb]
    simp
  rw [reTest, hpat, globMatch_lit_append_iff]
  constructor
  · rintro ⟨s', hs, hm⟩
    rw [globMatch_star_iff] at hm
    obtain ⟨s1, s2, rfl, hclean, hm2⟩ := hm
    rw [globMatch_lit_iff] at hm2
    refine ⟨String.mk s1, ?_, ?_⟩
    · apply String.toList_inj.mp
      have h2 : (a ++ String.mk s1 ++ b).toList = a.toList ++ s1 ++ b.toList := by
        simp [String.toList]
      rw [h2, hs, hm2, List.append_assoc]
    · intro c hc
      exact hclean c hc
  · rintro ⟨mid, rfl, hclean⟩
    refine ⟨mid.toList ++ b.toList, ?_, ?_⟩
    · simp [String.toList]
    · rw [globMatch_star_iff]
      exact ⟨mid.toList, b.toList, rfl, hclean,
        (globMatch_lit_iff b.toList b.toList).mpr rfl⟩

/-- Claim C4, counterexample to the claim as stated: the source builds
its regex with no dotAll flag, so the `.` inside the `.*` that `*`
compiles to excludes line terminators.  The compiled `a*b` does not
match the string obtained by putting a newline between a and b, and the
compiled catch-all `*` does not match a string containing a newline —
so `*` does not match every run of zero or more characters. -/
theorem c4_star_newline_counterexample :
    reTest (createWildcardRegex ("a*b")) ("a\nb") = false
    ∧ reTest (createWildcardRegex ("*")) ("x\ny") = false := by
  exact ⟨by decide, by decide⟩

/-- Claim C4, amended: a token without `*` matches exactly the token
itself (regex metacharacters are literal, being `PatTok.lit` tokens);
`*` matches any run of zero or more non-line-terminator characters (the
compiled regex has no dotAll flag, so its `.` excludes the newline,
carriage-return, line-separator and paragraph-separator characters); the
match is anchored at both ends; and the `a*b` examples hold.
Compilation itself is a total Lean function, so it cannot throw for any
token. -/
theorem c4_pattern_compilation :
    (∀ token s : String, '*' ∉ token.toList →
      (reTest (createWildcardRegex token) s = true ↔ s = token))
  ∧ (∀ a b s : String, '*' ∉ a.toList → '*' ∉ b.toList →
      (reTest (createWildcardRegex (a ++ "*" ++ b)) s = true ↔
        ∃ mid : String, s = a ++ mid ++ b ∧ ∀ c ∈ mid.toList, isLineTerminator c = false))
  ∧ reTest (createWildcardRegex ("a*b")) ("ab") = true
  ∧ reTest (createWildcardRegex ("a*b")) ("axb") = true
  ∧ reTest (createWildcardRegex ("a*b")) ("axxxb") = true
  ∧ reTest (createWildcardRegex ("a*b")) ("a") = false
  ∧ reTest (createWildcardRegex ("a*b")) ("b") = false := by
  refine ⟨?_, ?_, by decide, by decide, by decide, by decide, by decide⟩
  · intro token s h
    rw [reTest, createWildcardRegex_of_noStar token h, globMatch_lit_iff]
    exact ⟨fun he => String.toList_inj.mp he.symm, fun he => (String.toList_inj.mpr he.symm)⟩
  · intro a b s ha hb
    exact reTest_star_decomp a b s ha hb

theorem c4_pattern_compilation_witness :
    reTest (createWildcardRegex ("app.x")) ("app.x") = true ∧
    reTest (createWildcardRegex ("app.x")) ("appQx") = false := by
  have h := c4_pattern_compilation.1
  constructor
  · exact (h ("app.x") ("app.x") (by decide)).mpr rfl
  · by_contra hc
    simp only [Bool.not_eq_false] at hc
    have := (h ("app.x") ("appQx") (by decide)).mp hc
    exact absurd this (by decide)

/-- Claim C5: namespace gating.  For every include/exclude configuration
(in particular every one produced by `enableNamespaces`), a matching
exclude pattern forces `isNamespaceEnabled` to false regardless of the
includes; otherwise the result is true exactly when some include pattern
matches; and a non-string or empty namespace argument is treated as the
literal string `"global"`. -/
theorem c5_namespace_gating :
    (∀ (inc exc : List (List PatTok)) (ns : String), ns ≠ "" →
      (∃ p ∈ exc, reTest p ns = true) →
      isNamespaceEnabled inc exc (.vstr ns) = false)
  ∧ (∀ (inc exc : List (List PatTok)) (ns : String), ns ≠ "" →
      (∀ p ∈ exc, reTest p ns = false) →
      (isNamespaceEnabled inc exc (.vstr ns) = true ↔ ∃ p ∈ inc, reTest p ns = true))
  ∧ (∀ (inc exc : List (List PatTok)) (v : JsVal),
      (∀ s : String, v = .vstr s → s = "") →
      isNamespaceEnabled inc exc v = isNamespaceEnabled inc exc (.vstr ("global")))
  ∧ (∀ (spec : String) (ns : String), ns ≠ "" →
      (∃ p ∈ (enableNamespaces spec).2, reTest p ns = true) →
      isNamespaceEnabled (enableNamespaces spec).1 (enableNamespaces spec).2 (.vstr ns) = false) := by
  have hne : ∀ ns : String, ns ≠ "" → ns.length ≠ 0 := by
    intro ns h hl
    exact h (String.ext (List.length_eq_zero.mp hl))
  have hexc : ∀ (inc exc : List (List PatTok)) (ns : String), ns ≠ "" →
      (∃ p ∈ exc, reTest p ns = true) →
      isNamespaceEnabled inc exc (.vstr ns) = false := by
    intro inc exc ns h hm
    have : exc.any (fun re => reTest re ns) = true := List.any_eq_true.mpr hm
    simp [isNamespaceEnabled, hne ns h, this]
  refine ⟨hexc, ?_, ?_, fun spec ns h hm => hexc _ _ ns h hm⟩
  · intro inc exc ns h hm
    have : exc.any (fun re => reTest re ns) = false := by
      rw [List.any_eq_false]
      intro p hp
      simp [hm p hp]
    simp [isNamespaceEnabled, hne ns h, this, List.any_eq_true]
  · intro inc exc v hv
    match v with
    | .vstr s =>
      have : s = "" := hv s rfl
      subst this
      simp [isNamespaceEnabled]
    | .vnull => simp [isNamespaceEnabled]
    | .vundefined => simp [isNamespaceEnabled]
    | .vnum n => simp [isNamespaceEnabled]
    | .vbool b => simp [isNamespaceEnabled]
    | .vfun => simp [isNamespaceEnabled]
    | .vsym => simp [isNamespaceEnabled]
    | .varr l => simp [isNamespaceEnabled]
    | .vobj f => simp [isNamespaceEnabled]
    | .vbad => simp [isNamespaceEnabled]

theorem c5_namespace_gating_witness :
    isNamespaceEnabled [createWildcardRegex ("*")] [createWildcardRegex ("app:verbose")]
      (.vstr ("app:verbose")) = false ∧
    (isNamespaceEnabled [createWildcardRegex ("*")] [createWildcardRegex ("app:verbose")]
      (.vstr ("app:other")) = true ↔
      ∃ p ∈ [createWildcardRegex ("*")], reTest p ("app:other") = true) := by
  constructor
  · exact c5_namespace_gating.1 [createWildcardRegex ("*")] [createWildcardRegex ("app:verbose")]
      ("app:verbose") (by decide) (by decide)
  · exact c5_namespace_gating.2.1 [createWildcardRegex ("*")] [createWildcardRegex ("app:verbose")]
      ("app:other") (by decide) (by decide)

/-- A default-shaped pipeline state (level `debug`, catch-all includes,
no overrides), used for concrete evaluations. -/
def stDefault : BCState :=
  { level := "debug"
    levelWeight := 20
    includePatterns := [createWildcardRegex ("*")]
    excludePatterns := []
    buffer := []
    transports := []
    paused := false
    onceKeys := []
    nsLevelRules := []
    sampleRules := []
    bufferSize := 500
    printToNative := true
    captureStack := JsVal.vbool false }

/-- Claim C3, counterexample to the claim as stated: with no sampling
rule configured, a `log`-level call on namespace `app` passes the level
check, yet the sampling cursor does not advance — no random draw is
consumed although the level check has passed.  This refutes the claim
that the sampling random draw is consumed if and only if the level
check has already passed. -/
theorem c3_gate_order_counterexample :
    ¬ ((levelLookup ("log")).getD 30 < getEffectiveLevelWeight stDefault (.vstr ("app")))
    ∧ (emitGate stDefault ("log") ("app") (fun _ => 0) 0).2 = 0
    ∧ (emitGate stDefault ("log") ("app") (fun _ => 0) 0).1 = Decision.accept := by
  refine ⟨by decide, ?_, ?_⟩ <;> rfl

/-- Claim C3 (amended): the gate evaluates level first, then sampling,
then namespace enablement, in exactly that order; the sampling draw is
consumed if and only if the level check has already passed *and* some
sampling rule matches the namespace; consequently changing the global
level threshold never perturbs the sampling cursor, decision, or
remaining random sequence of calls whose level already passed. -/
theorem c3_gate_order_amended :
    (∀ (st : BCState) (lvl ns : String) (rand : Nat → ℚ) (idx : Nat),
      (levelLookup lvl).getD 30 < getEffectiveLevelWeight st (.vstr ns) →
      emitGate st lvl ns rand idx = (.rejectLevel, idx))
  ∧ (∀ (st : BCState) (lvl ns : String) (rand : Nat → ℚ) (idx : Nat),
      ¬ ((levelLookup lvl).getD 30 < getEffectiveLevelWeight st (.vstr ns)) →
      (shouldPassSampling st (.vstr ns) rand idx).1 = false →
      emitGate st lvl ns rand idx =
        (.rejectSampling, (shouldPassSampling st (.vstr ns) rand idx).2))
  ∧ (∀ (st : BCState) (lvl ns : String) (rand : Nat → ℚ) (idx : Nat),
      ¬ ((levelLookup lvl).getD 30 < getEffectiveLevelWeight st (.vstr ns)) →
      (shouldPassSampling st (.vstr ns) rand idx).1 = true →
      isNamespaceEnabled st.includePatterns st.excludePatterns (.vstr ns) = false →
      emitGate st lvl ns rand idx =
        (.rejectNamespace, (shouldPassSampling st (.vstr ns) rand idx).2))
  ∧ (∀ (st : BCState) (lvl ns : String) (rand : Nat → ℚ) (idx : Nat),
      ¬ ((levelLookup lvl).getD 30 < getEffectiveLevelWeight st (.vstr ns)) →
      (shouldPassSampling st (.vstr ns) rand idx).1 = true →
      isNamespaceEnabled st.includePatterns st.excludePatterns (.vstr ns) = true →
      emitGate st lvl ns rand idx = (.accept, (shouldPassSampling st (.vstr ns) rand idx).2))
  ∧ (∀ (st : BCState) (lvl ns : String) (rand : Nat → ℚ) (idx : Nat),
      (emitGate st lvl ns rand idx).2 =
        if ¬ ((levelLookup lvl).getD 30 < getEffectiveLevelWeight st (.vstr ns))
            ∧ (∃ r ∈ st.sampleRules, reTest r.1 ns = true)
        then idx + 1 else idx)
  ∧ (∀ (st : BCState) (w' : Nat) (lvl ns : String) (rand : Nat → ℚ) (idx : Nat),
      ¬ ((levelLookup lvl).getD 30 < getEffectiveLevelWeight st (.vstr ns)) →
      ¬ ((levelLookup lvl).getD 30 <
          getEffectiveLevelWeight { st with levelWeight := w' } (.vstr ns)) →
      emitGate st lvl ns rand idx = emitGate { st with levelWeight := w' } lvl ns rand idx) := by
  refine ⟨?_, ?_, ?_, ?_, ?_, ?_⟩
  · intro st lvl ns rand idx h
    simp [emitGate, h]
  · intro st lvl ns rand idx h1 h2
    simp [emitGate, h1, h2]
  · intro st lvl ns rand idx h1 h2 h3
    simp [emitGate, h1, h2, h3]
  · intro st lvl ns rand idx h1 h2 h3
    simp [emitGate, h1, h2, h3]
  · intro st lvl ns rand idx
    by_cases hl : (levelLookup lvl).getD 30 < getEffectiveLevelWeight st (.vstr ns)
    · simp [emitGate, hl]
    · have h2 : (emitGate st lvl ns rand idx).2 = (shouldPassSampling st (.vstr ns) rand idx).2 := by
        simp only [emitGate, if_neg hl]
        split
        · rfl
        · split <;> rfl
      rw [h2]
      show (shouldPassSampling st (.vstr ns) rand idx).2 = _
      unfold shouldPassSampling
      cases hf : st.sampleRules.find? (fun rule => reTest rule.1 ns) with
      | none =>
        have hno : ¬ ∃ r ∈ st.sampleRules, reTest r.1 ns = true := by
          intro ⟨r, hr, hm⟩
          exact absurd hm (by simpa using List.find?_eq_none.mp hf r hr)
        simp [hf, hl, hno]
      | some r =>
        have hyes : ∃ r ∈ st.sampleRules, reTest r.1 ns = true := by
          apply List.find?_isSome.mp
          rw [hf]
          rfl
        simp [hf, hl, hyes]
  · intro st w' lvl ns rand idx h1 h2
    unfold emitGate
    rw [if_neg h1, if_neg h2]
    rfl

theorem c3_gate_order_amended_witness :
    emitGate { stDefault with levelWeight := 50 } ("log") ("app") (fun _ => 0) 0 =
      (.rejectLevel, 0) ∧
    emitGate stDefault ("log") ("app") (fun _ => 0) 0 =
      emitGate { stDefault with levelWeight := 10 } ("log") ("app") (fun _ => 0) 0 := by
  constructor
  · exact c3_gate_order_amended.1 _ ("log") ("app") _ 0 (by decide)
  · exact c3_gate_order_amended.2.2.2.2.2 stDefault 10 ("log") ("app") (fun _ => 0) 0
      (by decide) (by decide)

theorem dropOverflow_eq_drop (cap : Nat) (l : List Entry) :
    dropOverflow cap l = l.drop (l.length - cap) := by
  unfold dropOverflow
  by_cases h : l.length - cap > 0
  · simp only [h, if_true]
  · simp only [h, if_false]
    have h0 : l.length - cap = 0 := by omega
    rw [h0, List.drop_zero]

theorem dropOverflow_length (cap : Nat) (l : List Entry) :
    (dropOverflow cap l).length = min l.length cap := by
  rw [dropOverflow_eq_drop, List.length_drop]
  omega

theorem dropOverflow_append (cap : Nat) (l m : List Entry) :
    dropOverflow cap (dropOverflow cap l ++ m) = dropOverflow cap (l ++ m) := by
  rcases Nat.le_total l.length cap with h | h
  · have h0 : l.length - cap = 0 := by rw [Nat.sub_eq_zero_iff_le]; exact h
    rw [dropOverflow_eq_drop cap l, h0, List.drop_zero]
  · have hk : l.length - cap ≤ l.length := Nat.sub_le _ _
    rw [dropOverflow_eq_drop cap l, dropOverflow_eq_drop, dropOverflow_eq_drop,
      ← List.drop_append_of_le_length hk, List.drop_drop]
    congr 1
    simp only [List.length_append, List.length_drop]
    omega

theorem addToBuffer_foldl (cap : Nat) (es : List Entry) (he : es ≠ []) :
    ∀ buf, es.foldl (addToBuffer cap) buf = dropOverflow cap (buf ++ es) := by
  induction es with
  | nil => exact absurd rfl he
  | cons e es ih =>
    intro buf
    cases es with
    | nil => simp [List.foldl, addToBuffer]
    | cons e2 es2 =>
      rw [List.foldl_cons, ih (by simp) (addToBuffer cap buf e), addToBuffer,
        dropOverflow_append]
      congr 1
      simp

/-- Lowercase hex digit, as used by the `\u00XX` escapes that
`JSON.stringify` emits for control characters. -/
def hexDigit (n : Nat) : Char :=
  if n < 10 then Char.ofNat (48 + n) else Char.ofNat (87 + n)

/-- The escape of one character in a JSON string literal, exactly as
`JSON.stringify` produces it: quote, backslash and the named control
escapes get two-character escapes, other control characters get
`\u00XX`, everything else passes through. -/
def escChar (c : Char) : List Char :=
  if c = '"' then ['\\', '"']
  else if c = '\\' then ['\\', '\\']
  else if c = '\x08' then ['\\', 'b']
  else if c = '\x0c' then ['\\', 'f']
  else if c = '\n' then ['\\', 'n']
  else if c = '\r' then ['\\', 'r']
  else if c = '\t' then ['\\', 't']
  else if c.toNat < 32 then
    ['\\', 'u', '0', '0', hexDigit (c.toNat / 16), hexDigit (c.toNat % 16)]
  else [c]

/-- `escChar` over a whole string body. -/
def escList : List Char → List Char
  | [] => []
  | c :: l => escChar c ++ escList l

/-- `JSON.stringify` of a single string value. -/
def jsonQuote (s : String) : String :=
  "\"" ++ String.mk (escList s.toList) ++ "\""

/-- JSON whitespace. -/
def isWsChar (c : Char) : Bool :=
  c = ' ' || c = '\n' || c = '\t' || c = '\r'

/-- Skip leading JSON whitespace. -/
def skipWs : List Char → List Char
  | [] => []
  | c :: r => if isWsChar c then skipWs r else c :: r

/-- Value of one hex digit. -/
def hexVal (c : Char) : Option Nat :=
  if '0' ≤ c ∧ c ≤ '9' then some (c.toNat - 48)
  else if 'a' ≤ c ∧ c ≤ 'f' then some (c.toNat - 87)
  else if 'A' ≤ c ∧ c ≤ 'F' then some (c.toNat - 55)
  else none

/-- Decoding of a two-character JSON escape (after the backslash). -/
def escDecode (e : Char) : Option Char :=
  if e = '"' then some '"'
  else if e = '\\' then some '\\'
  else if e = '/' then some '/'
  else if e = 'b' then some '\x08'
  else if e = 'f' then some '\x0c'
  else if e = 'n' then some '\n'
  else if e = 'r' then some '\r'
  else if e = 't' then some '\t'
  else none

mutual

/-- Body of a JSON string literal (after the opening quote): collects
characters up to the closing quote, decoding escapes. -/
def parseStrBody : List Char → Option (List Char × List Char)
  | [] => none
  | c :: r =>
    if c = '"' then some ([], r)
    else if c = '\\' then parseEscBody r
    else
      match parseStrBody r with
      | some (s, rest) => some (c :: s, rest)
      | none => none
termination_by l => l.length

/-- A JSON string escape, positioned right after the backslash. -/
def parseEscBody : List Char → Option (List Char × List Char)
  | [] => none
  | e :: r1 =>
    if e = 'u' then parseUBody r1
    else
      match escDecode e with
      | some ch =>
        match parseStrBody r1 with
        | some (s, rest) => some (ch :: s, rest)
        | none => none
      | none => none
termination_by l => l.length

/-- A `\uXXXX` escape, positioned right after the `u`; restricted to
scalar values below the surrogate range, which covers everything
`JSON.stringify` emits for string records. -/
def parseUBody : List Char → Option (List Char × List Char)
  | h1 :: h2 :: h3 :: h4 :: r2 =>
    match hexVal h1, hexVal h2, hexVal h3, hexVal h4 with
    | some a, some b, some c2, some d =>
      let n := ((a * 16 + b) * 16 + c2) * 16 + d
      if n < 55296 then
        match parseStrBody r2 with
        | some (s, rest) => some (Char.ofNat n :: s, rest)
        | none => none
      else none
    | _, _, _, _ => none
  | _ => none
termination_by l => l.length

end


/-- `"key": "value"` pairs of a flat JSON object, including the closing
brace; `fuel` bounds the number of pairs. -/
def parsePairs (fuel : Nat) (cs : List Char) : Option (List (String × JsVal) × List Char) :=
  match fuel with
  | 0 => none
  | fuel + 1 =>
    match skipWs cs with
    | c :: r =>
      if c = '"' then
        match parseStrBody r with
        | none => none
        | some (k, r1) =>
          match skipWs r1 with
          | c2 :: r2 =>
            if c2 = ':' then
              match skipWs r2 with
              | c3 :: r3 =>
                if c3 = '"' then
                  match parseStrBody r3 with
                  | none => none
                  | some (v, r4) =>
                    let pair := (String.mk k, JsVal.vstr (String.mk v))
                    match skipWs r4 with
                    | c5 :: r5 =>
                      if c5 = ',' then
                        match parsePairs fuel r5 with
                        | some (rest, r6) => some (pair :: rest, r6)
                        | none => none
                      else if c5 = '\x7d' then some ([pair], r5)
                      else none
                    | [] => none
                else none
              | [] => none
            else none
          | [] => none
      else none
    | [] => none

/-- A flat JSON object body (after the opening brace). -/
def parseObjBody (fuel : Nat) (cs : List Char) : Option (List (String × JsVal) × List Char) :=
  match skipWs cs with
  | c :: r => if c = '\x7d' then some ([], r) else parsePairs fuel cs
  | [] => none

/-- Elements of a JSON array of flat objects, including the closing
bracket; `fuel` bounds the number of elements. -/
def parseItems (pfuel : Nat) (fuel : Nat) (cs : List Char) : Option (List JsVal × List Char) :=
  match fuel with
  | 0 => none
  | fuel + 1 =>
    match skipWs cs with
    | c :: r =>
      if c = '\x7b' then
        match parseObjBody pfuel r with
        | none => none
        | some (fields, r1) =>
          match skipWs r1 with
          | c2 :: r2 =>
            if c2 = ',' then
              match parseItems pfuel fuel r2 with
              | some (rest, r3) => some (JsVal.vobj fields :: rest, r3)
              | none => none
            else if c2 = ']' then some ([JsVal.vobj fields], r2)
            else none
          | [] => none
      else none
    | [] => none

/-- Model of the platform's `JSON.parse` restricted to the shape
`importBuffer` round-trips through: an array of flat objects with
string values.  `none` models a parse error (`JSON.parse` throwing). -/
def parseJson (s : String) : Option JsVal :=
  let cs := s.toList
  match skipWs cs with
  | c :: r =>
    if c = '[' then
      match skipWs r with
      | c2 :: r2 =>
        if c2 = ']' then (if skipWs r2 = [] then some (.varr []) else none)
        else
          match parseItems (cs.length + 5) (cs.length + 5) r with
          | some (items, rest) => if skipWs rest = [] then some (.varr items) else none
          | none => none
      | [] => none
    else none
  | [] => none

/-- The coercion `importBuffer` applies to each imported element
(src/better-console.js:1106-1108): `String(e.field || default)`, with
the current time, `"log"`, `"global"` and `""` as the defaults. -/
def coerceEntry (now : String) (e : JsVal) : Entry :=
  { time := jsToString (if truthy (getProp e ("time")) then getProp e ("time") else .vstr now)
    level := jsToString (if truthy (getProp e ("level")) then getProp e ("level") else .vstr ("log"))
    «namespace» :=
      jsToString (if truthy (getProp e ("namespace")) then getProp e ("namespace")
        else .vstr ("global"))
    preview := jsToString (if truthy (getProp e ("preview")) then getProp e ("preview")
      else .vstr ("")) }

/-- The `append` flag of `importBuffer`
(src/better-console.js:1102): `options && options.append !== false`.
`none` models an omitted (or otherwise falsy) options argument. -/
def importAppendFlag (options : Option (List (String × JsVal))) : Bool :=
  match options with
  | none => false
  | some fields =>
    match getProp (.vobj fields) ("append") with
    | .vbool false => false
    | _ => true

/-- Source: `importBuffer` (src/better-console.js:1101-1114).  An array
argument is taken as is, anything else is stringified and parsed; a
parse failure or a non-array result returns `false` with no mutation;
otherwise the coerced entries are appended (after discarding the buffer
unless appending) and the capacity invariant is enforced by trimming
from the front. -/
def importBuffer (cap : Nat) (now : String) (buf : List Entry)
    (jsonOrArray : JsVal) (options : Option (List (String × JsVal))) : Bool × List Entry :=
  let append := importAppendFlag options
  let arrOpt : Option (List JsVal) :=
    match jsonOrArray with
    | .varr es => some es
    | v =>
      match parseJson (jsToString v) with
      | some (.varr es) => some es
      | some _ => none
      | none => none
  match arrOpt with
  | none => (false, buf)
  | some es =>
    let trimmed := es.map (coerceEntry now)
    let base := if append then buf else []
    (true, dropOverflow cap (base ++ trimmed))

/-- One history-mutating operation of the buffer claim: the append of an
accepted log call, or an `importBuffer` call with an array argument. -/
inductive BufOp where
  | append (e : Entry)
  | importArr (es : List JsVal) (options : Option (List (String × JsVal)))

/-- Effect of one operation on the stored history. -/
def applyBufOp (cap : Nat) (now : String) (buf : List Entry) : BufOp → List Entry
  | .append e => addToBuffer cap buf e
  | .importArr es options => (importBuffer cap now buf (.varr es) options).2

theorem applyBufOp_length_le (cap : Nat) (now : String) (buf : List Entry) (op : BufOp) :
    (applyBufOp cap now buf op).length ≤ cap := by
  cases op with
  | append e =>
    rw [applyBufOp, addToBuffer, dropOverflow_length]
    omega
  | importArr es options =>
    show ((importBuffer cap now buf (.varr es) options).2).length ≤ cap
    rw [importBuffer]
    simp only
    rw [dropOverflow_length]
    omega

/-- Claim C2: the stored history never exceeds the configured capacity —
after any nonempty sequence of appends and imports the length is at most
`cap` — and appending `cap + k` entries leaves exactly the last `cap`
entries in oldest-to-newest insertion order. -/
theorem c2_buffer_invariant :
    (∀ (cap : Nat) (now : String) (buf : List Entry) (ops : List BufOp), ops ≠ [] →
      (ops.foldl (applyBufOp cap now) buf).length ≤ cap)
  ∧ (∀ (cap k : Nat) (buf es : List Entry), 0 < cap → es.length = cap + k →
      es.foldl (addToBuffer cap) buf = es.drop k) := by
  constructor
  · intro cap now buf ops
    induction ops generalizing buf with
    | nil => intro h; exact absurd rfl h
    | cons op rest ih =>
      intro _
      cases rest with
      | nil => exact applyBufOp_length_le cap now buf op
      | cons op2 rest2 =>
        rw [List.foldl_cons]
        exact ih (applyBufOp cap now buf op) (by simp)
  · intro cap k buf es hcap hlen
    have hne : es ≠ [] := by
      intro h
      rw [h] at hlen
      simp at hlen
      omega
    rw [addToBuffer_foldl cap es hne buf, dropOverflow_eq_drop]
    have hidx : (buf ++ es).length - cap = buf.length + k := by
      rw [List.length_append]
      omega
    rw [hidx, List.drop_append]

/-- Concrete entries used by witnesses. -/
def entW1 : Entry := { time := "t1", level := "log", «namespace» := "global", preview := "a" }

def entW2 : Entry := { time := "t2", level := "info", «namespace» := "app", preview := "b" }

def entW3 : Entry := { time := "t3", level := "warn", «namespace» := "db", preview := "c" }

theorem c2_buffer_invariant_witness :
    (([BufOp.append entW1, BufOp.append entW2, BufOp.append entW3].foldl
        (applyBufOp 2 ("now")) []).length ≤ 2)
  ∧ [entW1, entW2, entW3].foldl (addToBuffer 2) [] = [entW2, entW3] := by
  constructor
  · exact c2_buffer_invariant.1 2 ("now") [] _ (List.cons_ne_nil _ _)
  · have h := c2_buffer_invariant.2 2 1 [] [entW1, entW2, entW3] (by omega) (by rfl)
    rw [h]
    rfl

/-- The full log record handed to sinks (`entry` built in `emit`,
src/better-console.js:450-458).  `stack` is empty when no stack was
captured. -/
structure FullEntry where
  time : String
  level : String
  «namespace» : String
  preview : String
  args : List JsVal
  stack : String

/-- Behaviour of the registered sinks: sink number `fn` applied to a
record either returns or throws. -/
def SinkBeh : Type :=
  Nat → FullEntry → Except Unit Unit

/-- Source: `addTransport` (src/better-console.js:875-878): push to the
end; duplicate identities are permitted (no dedup).  Sinks are
identified by number; the `typeof fn === 'function'` guard is implicit
in the identifier model. -/
def addTransport (ts : List Nat) (fn : Nat) : List Nat :=
  ts ++ [fn]

/-- Source: `removeTransport` (src/better-console.js:880-883):
`indexOf` finds the first identity-equal occurrence, `splice` removes
exactly that one. -/
def removeTransport (ts : List Nat) (fn : Nat) : List Nat :=
  match ts.indexOf? fn with
  | some i => ts.eraseIdx i
  | none => ts

/-- The per-sink `try { sink(entry) } catch (_) /- ignore -/` of
`notifyTransports`: a throwing sink is caught and neutralised. -/
def runSinkCaught (beh : SinkBeh) (fn : Nat) (e : FullEntry) : Except Unit Unit :=
  match beh fn e with
  | .ok _ => .ok ()
  | .error _ => .ok ()

/-- Source: `notifyTransports` (src/better-console.js:885-890): invoke
every registered sink in registration order with the record, each under
its own catch.  The returned trace lists the invocations in order; an
uncaught exception would surface as `.error`. -/
def notifyTransports (beh : SinkBeh) (e : FullEntry) :
    List Nat → Except Unit (List (Nat × FullEntry))
  | [] => .ok []
  | fn :: ts =>
    match runSinkCaught beh fn e with
    | .ok _ =>
      match notifyTransports beh e ts with
      | .ok trace => .ok ((fn, e) :: trace)
      | .error err => .error err
    | .error err => .error err

theorem notifyTransports_ok (beh : SinkBeh) (e : FullEntry) (ts : List Nat) :
    notifyTransports beh e ts = .ok (ts.map (fun t => (t, e))) := by
  induction ts with
  | nil => rfl
  | cons fn ts ih =>
    rw [notifyTransports, ih]
    rw [show runSinkCaught beh fn e = .ok () from by
      rw [runSinkCaught]
      cases beh fn e <;> rfl]
    rfl

/-- Claim C7: sink fan-out.  Every registered sink is invoked in
registration order with the record and no sink error escapes or stops
later sinks (the notification always returns the full ordered trace);
duplicate registration of one identity yields multiple invocations; and
removal deletes exactly the first identity-equal registration. -/
theorem c7_transport_fanout :
    (∀ (beh : SinkBeh) (e : FullEntry) (ts : List Nat),
      notifyTransports beh e ts = .ok (ts.map (fun t => (t, e))))
  ∧ (∀ (ts : List Nat) (s : Nat),
      (addTransport (addTransport ts s) s).count s = ts.count s + 2)
  ∧ (∀ (ts : List Nat) (s : Nat), removeTransport (s :: ts) s = ts)
  ∧ (∀ (ts : List Nat) (s : Nat), s ∉ ts → removeTransport ts s = ts) := by
  refine ⟨notifyTransports_ok, ?_, ?_, ?_⟩
  · intro ts s
    simp [addTransport]
  · intro ts s
    rw [removeTransport]
    rw [show (s :: ts).indexOf? s = some 0 from by simp [List.indexOf?_cons]]
    rfl
  · intro ts s h
    rw [removeTransport]
    rw [show ts.indexOf? s = none from List.indexOf?_eq_none_iff.mpr (by
      intro x hx
      simp only [beq_iff_eq]
      intro he
      exact h (he ▸ hx))]

theorem c7_transport_fanout_witness :
    removeTransport [3, 7] 5 = [3, 7] :=
  c7_transport_fanout.2.2.2 [3, 7] 5 (by decide)

/-- Behaviour of a registered redactor: a JS function of the argument
array and `{level, namespace}` context that may return anything — or
throw. -/
def RedactorBeh : Type :=
  Option (List JsVal → String → String → Except Unit JsVal)

/-- Source: `applyRedaction` (src/better-console.js:547-557): no
registered redactor passes the arguments through; a throwing redactor
or one returning a non-array falls back to the original arguments; an
array result is used verbatim. -/
def applyRedaction (red : RedactorBeh) (argsLike : List JsVal) (levelName ns : String) :
    List JsVal :=
  match red with
  | none => argsLike
  | some f =>
    match f argsLike levelName ns with
    | .ok out =>
      match out with
      | .varr l => l
      | _ => argsLike
    | .error _ => argsLike

mutual

/-- Model of `JSON.stringify` on a modelled value; `.error` models a
throw, which happens exactly when the value contains `vbad`. -/
def jsonStringifyVal : JsVal → Except Unit String
  | .vbad => .error ()
  | .vnull => .ok ("null")
  | .vundefined => .ok ("undefined")
  | .vstr s => .ok (jsonQuote s)
  | .vnum n => .ok (toString n)
  | .vbool b => .ok (if b then ("true") else ("false"))
  | .vfun => .ok ("undefined")
  | .vsym => .ok ("undefined")
  | .varr l =>
    match jsonStringifyArr l with
    | .ok parts => .ok ("[" ++ String.intercalate (",") parts ++ "]")
    | .error e => .error e
  | .vobj fields =>
    match jsonStringifyFields fields with
    | .ok parts => .ok ("\x7b" ++ String.intercalate (",") parts ++ "\x7d")
    | .error e => .error e

/-- Array elements of `JSON.stringify` (undefined-like values render as
`null`). -/
def jsonStringifyArr : List JsVal → Except Unit (List String)
  | [] => .ok []
  | v :: l =>
    match v with
    | .vundefined | .vfun | .vsym =>
      match jsonStringifyArr l with
      | .ok parts => .ok ("null" :: parts)
      | .error e => .error e
    | _ =>
      match jsonStringifyVal v with
      | .ok s =>
        match jsonStringifyArr l with
        | .ok parts => .ok (s :: parts)
        | .error e => .error e
      | .error e => .error e

/-- Object fields of `JSON.stringify` (undefined-like values are
skipped). -/
def jsonStringifyFields : List (String × JsVal) → Except Unit (List String)
  | [] => .ok []
  | (k, v) :: l =>
    match v with
    | .vundefined | .vfun | .vsym => jsonStringifyFields l
    | _ =>
      match jsonStringifyVal v with
      | .ok s =>
        match jsonStringifyFields l with
        | .ok parts => .ok ((jsonQuote k ++ ":" ++ s) :: parts)
        | .error e => .error e
      | .error e => .error e

end

/-- Source: `stringifyForPreview` (src/better-console.js:567-580):
primitives by type, `[function]`/`[symbol]` markers, structured values
through `JSON.stringify` with `[object]` as the catch fallback. -/
def stringifyForPreview (value : JsVal) : String :=
  match value with
  | .vnull => "null"
  | .vundefined => "undefined"
  | .vstr s => s
  | .vnum n => toString n
  | .vbool b => if b then ("true") else ("false")
  | .vfun => "[function]"
  | .vsym => "[symbol]"
  | v =>
    match jsonStringifyVal v with
    | .ok s => s
    | .error _ => "[object]"

/-- The accumulation loop of `buildPreview`
(src/better-console.js:529-541): push the stringified argument, stop
once the joined length exceeds 300 (the crossing argument stays). -/
def buildPreviewLoop (args : List JsVal) (out : List String) : List String :=
  match args with
  | [] => out
  | a :: rest =>
    let out' := out ++ [stringifyForPreview a]
    if (String.intercalate (" ") out').length > 300 then out'
    else buildPreviewLoop rest out'

/-- Source: `buildPreview`; every step of the loop is total here, so the
source's catch fallback `"[unavailable]"` is dead code in the model. -/
def buildPreview (args : List JsVal) : String :=
  String.intercalate (" ") (buildPreviewLoop args [])

/-- The `need` condition of `maybeCaptureStack`
(src/better-console.js:559-565). -/
def stackNeeded (cfg : JsVal) (levelName : String) : Bool :=
  match cfg with
  | .vstr s =>
    if s = "always" then true
    else if s = "error" then (levelName = "error" || levelName = "warn")
    else false
  | .vbool b => b
  | _ => false

/-- Source: `maybeCaptureStack`: behind a truthiness gate and the
`need` condition; the capture itself (a throw/catch in JS) is an
externally supplied text and never raises. -/
def maybeCaptureStack (cfg : JsVal) (levelName : String) (stackText : String) : String :=
  if truthy cfg = false then ("")
  else if stackNeeded cfg levelName then stackText else ("")

/-- Externally supplied capabilities of one logging call: random
source, clocks, captured stack text, the native console method, the
redactor, and sink behaviour.  Each `Except` models a collaborator that
may throw. -/
structure Ctx where
  rand : Nat → ℚ
  nowIso : String
  nowMs : ℚ
  stackText : String
  native : Except Unit Unit
  redactor : RedactorBeh
  sinkBeh : SinkBeh

/-- `try { original(...) } catch (_) /- swallow -/` around the native
console write. -/
def tryIgnore (x : Except Unit Unit) : Except Unit Unit :=
  match x with
  | .ok _ => .ok ()
  | .error _ => .ok ()

/-- What one `emit` call produced: the new state, the sampling cursor,
the sink invocation trace, and the record (absent when rejected). -/
structure EmitOut where
  st : BCState
  drawIdx : Nat
  trace : List (Nat × FullEntry)
  entry : Option FullEntry

/-- The record `emit` assembles for an accepted call
(src/better-console.js:429, 450-458): redact first, preview from the
redacted arguments, then the optional stack. -/
def emitEntry (ctx : Ctx) (st : BCState) (levelName ns : String) (args : List JsVal) :
    FullEntry :=
  let sanitized := applyRedaction ctx.redactor args levelName ns
  { time := ctx.nowIso, level := levelName, «namespace» := ns,
    preview := buildPreview sanitized, args := sanitized,
    stack := maybeCaptureStack st.captureStack levelName ctx.stackText }

/-- Source: `emit` (src/better-console.js:416-463): unknown level names
fall back to `log`; the three-step gate decides acceptance; on
acceptance the native write happens under its catch, the record is
assembled, every sink is notified, and the trimmed projection is
buffered. -/
def emit (ctx : Ctx) (st : BCState) (levelName0 ns : String) (argsLike : List JsVal)
    (idx : Nat) : Except Unit EmitOut :=
  let levelName := if (levelLookup levelName0).isSome then levelName0 else ("log")
  match emitGate st levelName ns ctx.rand idx with
  | (.accept, idx') => do
    let _ ← (if !st.paused && st.printToNative then tryIgnore ctx.native else .ok ())
    let entry := emitEntry ctx st levelName ns argsLike
    let trace ← notifyTransports ctx.sinkBeh entry st.transports
    let st' := { st with
      buffer := addToBuffer st.bufferSize st.buffer
        { time := entry.time, level := entry.level, «namespace» := entry.«namespace»,
          preview := entry.preview } }
    .ok { st := st', drawIdx := idx', trace := trace, entry := some entry }
  | (_, idx') => .ok { st := st, drawIdx := idx', trace := [], entry := none }

/-- `resetOnce` (src/better-console.js:144): the whole dedup set is
cleared at once. -/
def resetOnce (st : BCState) : BCState :=
  { st with onceKeys := [] }

/-- A raw key/label argument as the five keyed methods receive it:
either a value whose JavaScript `String()` coercion succeeds, or an
object whose `toString`/`Symbol.toPrimitive` throws when coerced. -/
inductive CoerceArg where
  | val (v : JsVal)
  | hostile

/-- Truthiness of a raw argument; an object with a throwing `toString`
is still an object, hence truthy. -/
def truthyArg : CoerceArg → Bool
  | .val v => truthy v
  | .hostile => true

/-- JavaScript `String(arg)`: invokes the argument's user-defined
conversion, which may throw.  The `String(key)` and
`String(label || 'default')` call sites in `once`, `count`,
`countReset`, `time` and `timeEnd`
(src/better-console.js:364,371,376,384,388) sit outside every
try/catch of the file, so such an error reaches the caller. -/
def coerceString : CoerceArg → Except Unit String
  | .val v => .ok (jsToString v)
  | .hostile => .error ()

/-- `String(label || 'default')` shared by `count`, `countReset`, `time`
and `timeEnd`: a falsy label short-circuits to the literal before any
coercion can throw. -/
def labelKey (label : CoerceArg) : Except Unit String :=
  if truthyArg label then coerceString label else .ok ("default")

/-- Source: `once` (src/better-console.js:363-369): composite key
`ns + "|" + String(key)`; an already-present key produces nothing, a
fresh key is marked and the remaining arguments are emitted at `info`
severity.  This is the behaviour on keys whose `String()` coercion
succeeds; `loggerOnceArg` adds the coercion itself. -/
def loggerOnce (ctx : Ctx) (st : BCState) (ns : String) (key : JsVal) (rest : List JsVal)
    (idx : Nat) : Except Unit EmitOut :=
  let k := ns ++ "|" ++ jsToString key
  if st.onceKeys.contains k then .ok { st := st, drawIdx := idx, trace := [], entry := none }
  else emit ctx { st with onceKeys := st.onceKeys ++ [k] } ("info") ns rest idx

/-- `once` with the `String(key)` coercion of line 364 made explicit:
the composite key is built before the dedup check, so a key whose
coercion throws makes the whole call throw.  On a key whose coercion
succeeds this agrees with `loggerOnce` (`loggerOnceArg_val`). -/
def loggerOnceArg (ctx : Ctx) (st : BCState) (ns : String) (key : CoerceArg)
    (rest : List JsVal) (idx : Nat) : Except Unit EmitOut := do
  let ks ← coerceString key
  let k := ns ++ "|" ++ ks
  if st.onceKeys.contains k then .ok { st := st, drawIdx := idx, trace := [], entry := none }
  else emit ctx { st with onceKeys := st.onceKeys ++ [k] } ("info") ns rest idx

/-- Assignment `m[k] = v` on a per-logger map. -/
def assocSet (m : List (String × α)) (k : String) (v : α) : List (String × α) :=
  match m.find? (fun p => p.1 = k) with
  | some _ => m.map (fun p => if p.1 = k then (k, v) else p)
  | none => m ++ [(k, v)]

/-- Source: `count` (src/better-console.js:370-374): the label key is
`String(label || 'default')` (line 371), computed first and able to
throw; then the counter increments and an informational record reports
the new total. -/
def loggerCount (ctx : Ctx) (st : BCState) (counters : List (String × Nat)) (ns : String)
    (label : CoerceArg) (idx : Nat) : Except Unit (List (String × Nat) × EmitOut) := do
  let k ← labelKey label
  let n := (match counters.find? (fun p => p.1 = k) with | some p => p.2 | none => 0) + 1
  let out ← emit ctx st ("info") ns [.vstr ("count " ++ k ++ ": " ++ toString n)] idx
  .ok (assocSet counters k n, out)

/-- Source: `countReset` (src/better-console.js:375-379): same
label-key coercion (line 376), then the counter resets to zero. -/
def loggerCountReset (ctx : Ctx) (st : BCState) (counters : List (String × Nat)) (ns : String)
    (label : CoerceArg) (idx : Nat) : Except Unit (List (String × Nat) × EmitOut) := do
  let k ← labelKey label
  let out ← emit ctx st ("info") ns [.vstr ("countReset " ++ k ++ ": 0")] idx
  .ok (assocSet counters k 0, out)

/-- Source: `time` (src/better-console.js:383-386): the label key
coercion (line 384) can throw; otherwise the monotonic timestamp is
stored, overwriting a pending timer of the same label; nothing is
emitted. -/
def loggerTime (timers : List (String × ℚ)) (label : CoerceArg) (nowMs : ℚ) :
    Except Unit (List (String × ℚ)) := do
  let key ← labelKey label
  .ok (assocSet timers key nowMs)

/-- `duration.toFixed(1)` for the nonnegative durations of `timeEnd`. -/
def toFixed1 (q : ℚ) : String :=
  let t : Int := round (q * 10)
  toString (t / 10) ++ "." ++ toString (t % 10)

/-- Source: `timeEnd` (src/better-console.js:387-394): the label key
coercion (line 388) can throw; a missing timer is a no-op; otherwise
the elapsed duration is computed, the pending timer removed, and an
informational record emitted. -/
def loggerTimeEnd (ctx : Ctx) (st : BCState) (timers : List (String × ℚ)) (ns : String)
    (label : CoerceArg) (idx : Nat) : Except Unit (List (String × ℚ) × EmitOut) := do
  let key ← labelKey label
  match timers.find? (fun p => p.1 = key) with
  | none => .ok (timers, { st := st, drawIdx := idx, trace := [], entry := none })
  | some p =>
    let dur := ctx.nowMs - p.2
    let out ← emit ctx st ("info") ns
      [.vstr ("Timer " ++ key ++ ": " ++ toFixed1 dur ++ "ms")] idx
    .ok (timers.eraseP (fun q => q.1 = key), out)

theorem loggerOnceArg_val (ctx : Ctx) (st : BCState) (ns : String) (key : JsVal)
    (rest : List JsVal) (idx : Nat) :
    loggerOnceArg ctx st ns (.val key) rest idx = loggerOnce ctx st ns key rest idx := rfl

theorem exceptOk_exists (x : Except Unit α) (h : x.isOk = true) : ∃ a, x = .ok a := by
  cases x with
  | error e => simp [Except.isOk, Except.toBool] at h
  | ok a => exact ⟨a, rfl⟩

theorem tryIgnore_ok (x : Except Unit Unit) : tryIgnore x = .ok () := by
  cases x <;> rfl

theorem emit_accept (ctx : Ctx) (st : BCState) (lvl ns : String) (args : List JsVal) (idx : Nat)
    (hv : (levelLookup lvl).isSome = true)
    (hacc : (emitGate st lvl ns ctx.rand idx).1 = Decision.accept) :
    emit ctx st lvl ns args idx = .ok
      { st := { st with
          buffer := addToBuffer st.bufferSize st.buffer
            { time := (emitEntry ctx st lvl ns args).time,
              level := (emitEntry ctx st lvl ns args).level,
              «namespace» := (emitEntry ctx st lvl ns args).«namespace»,
              preview := (emitEntry ctx st lvl ns args).preview } },
        drawIdx := (emitGate st lvl ns ctx.rand idx).2,
        trace := st.transports.map (fun t => (t, emitEntry ctx st lvl ns args)),
        entry := some (emitEntry ctx st lvl ns args) } := by
  rw [emit]
  simp only [hv, if_true]
  rcases hg : emitGate st lvl ns ctx.rand idx with ⟨d, idx'⟩
  rw [hg] at hacc
  simp only at hacc
  subst hacc
  simp [tryIgnore_ok, notifyTransports_ok, bind, Except.bind, hg]

theorem emit_reject (ctx : Ctx) (st : BCState) (lvl ns : String) (args : List JsVal) (idx : Nat)
    (hv : (levelLookup lvl).isSome = true)
    (hacc : (emitGate st lvl ns ctx.rand idx).1 ≠ Decision.accept) :
    emit ctx st lvl ns args idx = .ok
      { st := st, drawIdx := (emitGate st lvl ns ctx.rand idx).2, trace := [], entry := none } := by
  rw [emit]
  simp only [hv, if_true]

theorem emit_isOk (ctx : Ctx) (st : BCState) (lvl ns : String) (args : List JsVal) (idx : Nat) :
    (emit ctx st lvl ns args idx).isOk = true := by
  rw [emit]
  rcases hg : emitGate st (if (levelLookup lvl).isSome then lvl else ("log")) ns ctx.rand idx
    with ⟨d, idx'⟩
  cases d <;>
    simp [tryIgnore_ok, notifyTransports_ok, bind, Except.bind, Except.isOk, Except.toBool]

/-- Claim C1 (amended): the severity methods — all of which funnel into
`emit` — return normally for every state, argument list, redactor
behaviour (including throwing or non-array-returning ones), sink set
(including throwing sinks), and arguments whose serialization throws;
the documented fallbacks hold: original arguments when the redactor
fails, the full ordered sink fan-out despite throwing sinks, and the
`[object]` preview text when stringification fails.  `once`, `count`,
`countReset`, `time` and `timeEnd` return normally whenever the
`String()` coercion of their key/label argument does not throw; a
throwing coercion, however, propagates to the caller. -/
theorem c1_no_throw_amended :
    (∀ (ctx : Ctx) (st : BCState) (lvl ns : String) (args : List JsVal) (idx : Nat),
      (emit ctx st lvl ns args idx).isOk = true)
  ∧ (∀ (ctx : Ctx) (st : BCState) (ns : String) (key : CoerceArg) (rest : List JsVal)
      (idx : Nat), (coerceString key).isOk = true →
      (loggerOnceArg ctx st ns key rest idx).isOk = true)
  ∧ (∀ (ctx : Ctx) (st : BCState) (counters : List (String × Nat)) (ns : String)
      (label : CoerceArg) (idx : Nat), (labelKey label).isOk = true →
      (loggerCount ctx st counters ns label idx).isOk = true)
  ∧ (∀ (ctx : Ctx) (st : BCState) (counters : List (String × Nat)) (ns : String)
      (label : CoerceArg) (idx : Nat), (labelKey label).isOk = true →
      (loggerCountReset ctx st counters ns label idx).isOk = true)
  ∧ (∀ (timers : List (String × ℚ)) (label : CoerceArg) (q : ℚ),
      (labelKey label).isOk = true →
      (loggerTime timers label q).isOk = true)
  ∧ (∀ (ctx : Ctx) (st : BCState) (timers : List (String × ℚ)) (ns : String)
      (label : CoerceArg) (idx : Nat), (labelKey label).isOk = true →
      (loggerTimeEnd ctx st timers ns label idx).isOk = true)
  ∧ (∀ (f : List JsVal → String → String → Except Unit JsVal) (args : List JsVal)
      (lvl ns : String),
      f args lvl ns = .error () → applyRedaction (some f) args lvl ns = args)
  ∧ (∀ (f : List JsVal → String → String → Except Unit JsVal) (args : List JsVal)
      (lvl ns : String) (out : JsVal),
      f args lvl ns = .ok out → (∀ l, out ≠ .varr l) →
      applyRedaction (some f) args lvl ns = args)
  ∧ (∀ v : JsVal, jsonStringifyVal v = .error () → stringifyForPreview v = "[object]")
  ∧ (∀ (beh : SinkBeh) (e : FullEntry) (ts : List Nat),
      notifyTransports beh e ts = .ok (ts.map (fun t => (t, e)))) := by
  refine ⟨emit_isOk, ?_, ?_, ?_, ?_, ?_, ?_, ?_, ?_, notifyTransports_ok⟩
  · intro ctx st ns key rest idx hk
    obtain ⟨ks, hks⟩ := exceptOk_exists _ hk
    rw [loggerOnceArg, hks]
    by_cases h : (ns ++ "|" ++ ks) ∈ st.onceKeys
    · simp [bind, Except.bind, h, Except.isOk, Except.toBool]
    · simp [bind, Except.bind, h, emit_isOk]
  · intro ctx st counters ns label idx hl
    obtain ⟨k, hkk⟩ := exceptOk_exists _ hl
    obtain ⟨out, hout⟩ := exceptOk_exists _ (emit_isOk ctx st ("info") ns
      [.vstr ("count " ++ k ++ ": " ++ toString
        ((match counters.find? (fun p => p.1 = k) with | some p => p.2 | none => 0) + 1))] idx)
    rw [loggerCount, hkk]
    simp [bind, Except.bind, hout, Except.isOk, Except.toBool]
  · intro ctx st counters ns label idx hl
    obtain ⟨k, hkk⟩ := exceptOk_exists _ hl
    obtain ⟨out, hout⟩ := exceptOk_exists _ (emit_isOk ctx st ("info") ns
      [.vstr ("countReset " ++ k ++ ": 0")] idx)
    rw [loggerCountReset, hkk]
    simp [bind, Except.bind, hout, Except.isOk, Except.toBool]
  · intro timers label q hl
    obtain ⟨k, hkk⟩ := exceptOk_exists _ hl
    rw [loggerTime, hkk]
    simp [bind, Except.bind, Except.isOk, Except.toBool]
  · intro ctx st timers ns label idx hl
    obtain ⟨k, hkk⟩ := exceptOk_exists _ hl
    rw [loggerTimeEnd, hkk]
    rcases hf : timers.find? (fun p => p.1 = k) with _ | p
    · simp [bind, Except.bind, hf, Except.isOk, Except.toBool]
    · obtain ⟨out, hout⟩ := exceptOk_exists _ (emit_isOk ctx st ("info") ns
        [.vstr ("Timer " ++ k ++ ": " ++ toFixed1 (ctx.nowMs - p.2) ++ "ms")] idx)
      simp [bind, Except.bind, hf, hout, Except.isOk, Except.toBool]
  · intro f args lvl ns h
    rw [applyRedaction, h]
  · intro f args lvl ns out h hna
    rw [applyRedaction, h]
    cases out with
    | varr l => exact absurd rfl (hna l)
    | vnull => rfl
    | vundefined => rfl
    | vstr s => rfl
    | vnum n => rfl
    | vbool b => rfl
    | vfun => rfl
    | vsym => rfl
    | vobj fs => rfl
    | vbad => rfl
  · intro v h
    cases v with
    | varr l => simp [stringifyForPreview, h]
    | vobj fs => simp [stringifyForPreview, h]
    | vbad => rfl
    | vnull => exact absurd h (by simp [jsonStringifyVal])
    | vundefined => exact absurd h (by simp [jsonStringifyVal])
    | vstr s => exact absurd h (by simp [jsonStringifyVal])
    | vnum n => exact absurd h (by simp [jsonStringifyVal])
    | vbool b => exact absurd h (by simp [jsonStringifyVal])
    | vfun => exact absurd h (by simp [jsonStringifyVal])
    | vsym => exact absurd h (by simp [jsonStringifyVal])

/-- A maximally hostile context: throwing native console, throwing
redactor, throwing sinks. -/
def ctxHostile : Ctx where
  rand := fun _ => 0
  nowIso := "t"
  nowMs := 0
  stackText := "stack"
  native := .error ()
  redactor := some (fun _ _ _ => .error ())
  sinkBeh := fun _ _ => .error ()

/-- Claim C1, counterexample to the claim as stated: for a key/label
object whose `toString` throws, `once`, `count`, `countReset`, `time`
and `timeEnd` all throw to the caller — the `String(key)` and
`String(label || 'default')` calls
(src/better-console.js:364,371,376,384,388) sit outside every try/catch
of the file, so an error does escape these public logging calls. -/
theorem c1_throwing_coercion_counterexample :
    (loggerOnceArg ctxHostile stDefault ("db") CoerceArg.hostile [] 0).isOk = false
  ∧ (loggerCount ctxHostile stDefault [] ("app") CoerceArg.hostile 0).isOk = false
  ∧ (loggerCountReset ctxHostile stDefault [] ("app") CoerceArg.hostile 0).isOk = false
  ∧ (loggerTime [] CoerceArg.hostile 0).isOk = false
  ∧ (loggerTimeEnd ctxHostile stDefault [] ("app") CoerceArg.hostile 0).isOk = false := by
  exact ⟨rfl, rfl, rfl, rfl, rfl⟩

theorem c1_no_throw_amended_witness :
    (emit ctxHostile { stDefault with transports := [0] } ("log") ("app") [.vbad] 0).isOk = true
  ∧ (loggerOnceArg ctxHostile stDefault ("db") (CoerceArg.val (.vstr ("k"))) [] 0).isOk = true
  ∧ (loggerCount ctxHostile stDefault [] ("app") (CoerceArg.val .vnull) 0).isOk = true
  ∧ (loggerTimeEnd ctxHostile stDefault [] ("app") (CoerceArg.val .vnull) 0).isOk = true
  ∧ applyRedaction (some (fun _ _ _ => .error ())) [.vstr ("secret")] ("log") ("app")
      = [.vstr ("secret")]
  ∧ stringifyForPreview .vbad = "[object]" := by
  refine ⟨c1_no_throw_amended.1 ctxHostile _ ("log") ("app") [.vbad] 0, ?_, ?_, ?_, ?_, ?_⟩
  · exact c1_no_throw_amended.2.1 ctxHostile stDefault ("db") (CoerceArg.val (.vstr ("k")))
      [] 0 rfl
  · exact c1_no_throw_amended.2.2.1 ctxHostile stDefault [] ("app") (CoerceArg.val .vnull)
      0 rfl
  · exact c1_no_throw_amended.2.2.2.2.2.1 ctxHostile stDefault [] ("app")
      (CoerceArg.val .vnull) 0 rfl
  · exact c1_no_throw_amended.2.2.2.2.2.2.1 (fun _ _ _ => .error ()) [.vstr ("secret")]
      ("log") ("app") rfl
  · exact c1_no_throw_amended.2.2.2.2.2.2.2.2.1 .vbad rfl

theorem emit_onceKeys (ctx : Ctx) (st : BCState) (lvl ns : String) (args : List JsVal)
    (idx : Nat) (out : EmitOut) (h : emit ctx st lvl ns args idx = .ok out) :
    out.st.onceKeys = st.onceKeys := by
  rw [emit] at h
  rcases hg : emitGate st (if (levelLookup lvl).isSome then lvl else ("log")) ns ctx.rand idx
    with ⟨d, i⟩
  rw [hg] at h
  cases d <;> simp [tryIgnore_ok, notifyTransports_ok, bind, Except.bind] at h <;>
    rw [← h]

/-- Claim C6: dedup-by-key.  The composite key is `ns ++ "|" ++ key`;
the first call on a fresh key marks it and emits the remaining
arguments at `info` severity (exactly one record when the gate
accepts), the second call with the same pair produces nothing; after
`resetOnce` the pair fires again; and `once` never removes keys, so the
suppression persists until an explicit reset. -/
theorem c6_once_dedup :
    (∀ (ctx : Ctx) (st : BCState) (ns : String) (key : JsVal) (rest : List JsVal) (idx : Nat),
      (ns ++ "|" ++ jsToString key) ∈ st.onceKeys →
      loggerOnce ctx st ns key rest idx
        = .ok { st := st, drawIdx := idx, trace := [], entry := none })
  ∧ (∀ (ctx : Ctx) (st : BCState) (ns : String) (key : JsVal) (rest : List JsVal) (idx : Nat),
      (ns ++ "|" ++ jsToString key) ∉ st.onceKeys →
      loggerOnce ctx st ns key rest idx
        = emit ctx { st with onceKeys := st.onceKeys ++ [ns ++ "|" ++ jsToString key] }
            ("info") ns rest idx)
  ∧ (∀ (ctx : Ctx) (st : BCState) (ns : String) (key : JsVal) (rest rest2 : List JsVal)
      (idx idx2 : Nat) (out : EmitOut),
      (ns ++ "|" ++ jsToString key) ∉ st.onceKeys →
      loggerOnce ctx st ns key rest idx = .ok out →
      out.st.onceKeys = st.onceKeys ++ [ns ++ "|" ++ jsToString key]
      ∧ loggerOnce ctx out.st ns key rest2 idx2
          = .ok { st := out.st, drawIdx := idx2, trace := [], entry := none })
  ∧ (∀ (ctx : Ctx) (st : BCState) (ns : String) (key : JsVal) (rest : List JsVal)
      (idx : Nat) (out : EmitOut),
      (ns ++ "|" ++ jsToString key) ∉ st.onceKeys →
      (emitGate { st with onceKeys := st.onceKeys ++ [ns ++ "|" ++ jsToString key] }
          ("info") ns ctx.rand idx).1 = Decision.accept →
      loggerOnce ctx st ns key rest idx = .ok out →
      ∃ e, out.entry = some e ∧ e.level = "info" ∧ e.«namespace» = ns
        ∧ e.args = applyRedaction ctx.redactor rest ("info") ns)
  ∧ (∀ st : BCState, (resetOnce st).onceKeys = [])
  ∧ (∀ (ctx : Ctx) (st : BCState) (ns : String) (key : JsVal) (rest : List JsVal) (idx : Nat),
      loggerOnce ctx (resetOnce st) ns key rest idx
        = emit ctx { resetOnce st with onceKeys := [ns ++ "|" ++ jsToString key] }
            ("info") ns rest idx)
  ∧ (∀ (ctx : Ctx) (st : BCState) (ns : String) (key : JsVal) (rest : List JsVal)
      (idx : Nat) (out : EmitOut),
      loggerOnce ctx st ns key rest idx = .ok out →
      ∀ k ∈ st.onceKeys, k ∈ out.st.onceKeys) := by
  have h1 : ∀ (ctx : Ctx) (st : BCState) (ns : String) (key : JsVal) (rest : List JsVal)
      (idx : Nat),
      (ns ++ "|" ++ jsToString key) ∈ st.onceKeys →
      loggerOnce ctx st ns key rest idx
        = .ok { st := st, drawIdx := idx, trace := [], entry := none } := by
    intro ctx st ns key rest idx h
    simp [loggerOnce, h]
  have h2 : ∀ (ctx : Ctx) (st : BCState) (ns : String) (key : JsVal) (rest : List JsVal)
      (idx : Nat),
      (ns ++ "|" ++ jsToString key) ∉ st.onceKeys →
      loggerOnce ctx st ns key rest idx
        = emit ctx { st with onceKeys := st.onceKeys ++ [ns ++ "|" ++ jsToString key] }
            ("info") ns rest idx := by
    intro ctx st ns key rest idx h
    simp [loggerOnce, h]
  have h3 : ∀ (ctx : Ctx) (st : BCState) (ns : String) (key : JsVal) (rest : List JsVal)
      (idx : Nat) (out : EmitOut),
      (ns ++ "|" ++ jsToString key) ∉ st.onceKeys →
      loggerOnce ctx st ns key rest idx = .ok out →
      out.st.onceKeys = st.onceKeys ++ [ns ++ "|" ++ jsToString key] := by
    intro ctx st ns key rest idx out h hout
    rw [h2 ctx st ns key rest idx h] at hout
    have := emit_onceKeys _ _ _ _ _ _ _ hout
    simpa using this
  refine ⟨h1, h2, ?_, ?_, fun st => rfl, ?_, ?_⟩
  · intro ctx st ns key rest rest2 idx idx2 out h hout
    refine ⟨h3 ctx st ns key rest idx out h hout, ?_⟩
    apply h1
    rw [h3 ctx st ns key rest idx out h hout]
    exact List.mem_append_right _ (List.mem_singleton_self _)
  · intro ctx st ns key rest idx out h hacc hout
    rw [h2 ctx st ns key rest idx h] at hout
    rw [emit_accept ctx _ ("info") ns rest idx (by decide) hacc] at hout
    refine ⟨emitEntry ctx { st with onceKeys := st.onceKeys ++ [ns ++ "|" ++ jsToString key] }
      ("info") ns rest, ?_, rfl, rfl, rfl⟩
    have hout' := Except.ok.inj hout
    rw [← hout']
  · intro ctx st ns key rest idx
    have : (ns ++ "|" ++ jsToString key) ∉ (resetOnce st).onceKeys := by
      simp [resetOnce]
    rw [h2 ctx (resetOnce st) ns key rest idx this]
    simp [resetOnce]
  · intro ctx st ns key rest idx out hout k hk
    by_cases h : (ns ++ "|" ++ jsToString key) ∈ st.onceKeys
    · rw [h1 ctx st ns key rest idx h] at hout
      have := Except.ok.inj hout
      rw [← this]
      exact hk
    · rw [h3 ctx st ns key rest idx out h hout]
      exact List.mem_append_left _ hk

/-- A benign context: no redactor, no throwing collaborators. -/
def ctxBenign : Ctx where
  rand := fun _ => 0
  nowIso := "t"
  nowMs := 0
  stackText := ""
  native := .ok ()
  redactor := none
  sinkBeh := fun _ _ => .ok ()

theorem c6_once_dedup_witness :
    loggerOnce ctxBenign stDefault ("db") (.vstr ("slow-query")) [.vstr ("x")] 0
      = emit ctxBenign { stDefault with
          onceKeys := stDefault.onceKeys ++ ["db" ++ "|" ++ jsToString (.vstr ("slow-query"))] }
          ("info") ("db") [.vstr ("x")] 0 :=
  c6_once_dedup.2.1 ctxBenign stDefault ("db") (.vstr ("slow-query")) [.vstr ("x")] 0
    (by simp [stDefault])

/-- The state of the C8 counterexample: global level `warn` (weight 50)
and no per-namespace level rules. -/
def stWarn : BCState :=
  { stDefault with level := "warn", levelWeight := 50 }

/-- Claim C8, counterexample to the claim as stated: before the call,
the effective weight for namespace `app:x` is the global 50; after
`setNamespaceLevels` with the unknown level name `"bogus"` for pattern
`app:*`, the effective weight is the debug weight 20 — the per-namespace
configuration was not left as it was. -/
theorem c8_unknown_level_counterexample :
    getEffectiveLevelWeight stWarn (.vstr ("app:x")) = 50
    ∧ getEffectiveLevelWeight (setNamespaceLevels stWarn [("app:*", "bogus")])
        (.vstr ("app:x")) = 20
    ∧ levelLookup ("bogus") = none := by
  refine ⟨by decide, by decide, by decide⟩

/-- Claim C8 (amended): `setLevel` with an unknown level name is a
no-op — level, weight and the whole state are untouched, so `getLevel`
is unchanged; `setNamespaceLevels`, however, replaces the rule table
and does not preserve the prior per-namespace configuration: an unknown
level name outside the names inherited from `Object.prototype` compiles
to a rule at the debug weight (20), while a name colliding with an
inherited `Object.prototype` member (e.g. `constructor`, `toString`)
compiles to the inherited truthy value, whose level comparison then
never rejects any level (weight 0 in the model). -/
theorem c8_unknown_level_amended :
    (∀ (st : BCState) (name : String), levelLookup name = none → setLevel st name = st)
  ∧ (∀ (st : BCState) (name : String), levelLookup name = none →
      getLevel (setLevel st name) = getLevel st)
  ∧ (∀ (st : BCState) (pat lvl ns : String), levelLookup lvl = none →
      lvl ∉ objectProtoKeys →
      reTest (createWildcardRegex pat) ns = true →
      getEffectiveLevelWeight (setNamespaceLevels st [(pat, lvl)]) (.vstr ns) = 20)
  ∧ (∀ (st : BCState) (pat lvl ns : String), levelLookup lvl = none →
      lvl ∈ objectProtoKeys →
      reTest (createWildcardRegex pat) ns = true →
      getEffectiveLevelWeight (setNamespaceLevels st [(pat, lvl)]) (.vstr ns) = 0
      ∧ ∀ w : Nat,
        ¬ (w < getEffectiveLevelWeight (setNamespaceLevels st [(pat, lvl)]) (.vstr ns))) := by
  have hset : ∀ (st : BCState) (name : String), levelLookup name = none →
      setLevel st name = st := by
    intro st name h
    rw [setLevel, h]
  refine ⟨hset, fun st name h => by rw [hset st name h], ?_, ?_⟩
  · intro st pat lvl ns h hnp hm
    rw [setNamespaceLevels, getEffectiveLevelWeight]
    simp [compilePatternMap, jsToString, h, hm, hnp]
  · intro st pat lvl ns h hp hm
    have h0 : getEffectiveLevelWeight (setNamespaceLevels st [(pat, lvl)]) (.vstr ns) = 0 := by
      rw [setNamespaceLevels, getEffectiveLevelWeight]
      simp [compilePatternMap, jsToString, h, hm, hp]
    exact ⟨h0, fun w => by rw [h0]; exact Nat.not_lt_zero w⟩

theorem c8_unknown_level_amended_witness :
    setLevel stWarn ("bogus") = stWarn
    ∧ getEffectiveLevelWeight (setNamespaceLevels stWarn [("app:*", "bogus")])
        (.vstr ("app:x")) = 20
    ∧ getEffectiveLevelWeight (setNamespaceLevels stWarn [("app:*", "constructor")])
        (.vstr ("app:x")) = 0 := by
  refine ⟨?_, ?_, ?_⟩
  · exact c8_unknown_level_amended.1 stWarn ("bogus") (by decide)
  · exact c8_unknown_level_amended.2.2.1 stWarn ("app:*") ("bogus") ("app:x") (by decide)
      (by decide) (by decide)
  · exact (c8_unknown_level_amended.2.2.2 stWarn ("app:*") ("constructor") ("app:x")
      (by decide) (by decide) (by decide)).1
